import Mathlib

/-
  Verification of the 80-amino-acid sliding-cluster allergen-candidate
  identification routine (`find_clusters` inside `filter_peptides`,
  src/allergen_80AA-validation.py).

  The embedding is a direct shallow translation of the pandas code:
  * a row of the input CSV becomes a `PeptideHit`;
  * `group.sort_values(by="StartPosition")` becomes a sort by `startPosition`;
  * the `for _, row in group.iterrows()` sweep (lines 43-57) becomes
    `buildClusters`;
  * the per-cluster statistics block (lines 61-85) becomes `emitCluster`
    with `clusterTotal`, `clusterIdentity`, `clusterLabel`;
  * `data.groupby(["Species", "ProteinAccession"]).apply(find_clusters)`
    (pandas iterates groups in sorted key order, keeping the original row
    order inside each group) becomes `identifyClusters`.
  The float arithmetic of `identity = peptides_total_size / 80 * 100` is
  modelled exactly over `ℚ`; at every concrete value appearing in the
  claims (77.5, the 35 threshold, 200) the IEEE double computation yields
  the exact rational, so the model is faithful there.
-/

namespace AllergenValidation

/-- One row of the concatenated MASCOT csv, after the renaming of
`filter_peptides` (lines 25-31): the group-key columns `Species` and
`ProteinAccession`, the passthrough `PeptideSequence`, and the integer
`StartPosition` / `EndPosition` columns. -/
structure PeptideHit where
  species : String
  proteinAccession : String
  peptideSequence : String
  startPosition : Int
  endPosition : Int
deriving DecidableEq, Repr

/-- One row of the output CSV: the original hit plus the four derived
columns added on lines 79-84 (`ClusterTotalSize`, `PeptidesTotalSize`,
`Identity`, `Putative Allergen`). -/
structure OutputRow where
  hit : PeptideHit
  clusterTotalSize : Int
  peptidesTotalSize : Int
  identity : ℚ
  putativeAllergen : String
deriving DecidableEq, Repr

/-- Comparison used by `group.sort_values(by="StartPosition")` (line 38). -/
def startLE (a b : PeptideHit) : Prop :=
  a.startPosition ≤ b.startPosition

instance : DecidableRel startLE :=
  fun a b => Int.decLe a.startPosition b.startPosition

instance : IsTotal PeptideHit startLE :=
  ⟨fun a b => Int.le_total a.startPosition b.startPosition⟩

instance : IsTrans PeptideHit startLE :=
  ⟨fun _ _ _ h h' => le_trans h h'⟩

/-- The sweep of lines 43-57: iterate over the sorted rows, keeping the
current cluster as a list whose head is the row that seeded it
(`cluster[0]`); a row joins while `row["StartPosition"] <=
cluster[0]["StartPosition"] + 79`, otherwise the current cluster is
finalized and the row seeds a new one; the still-open cluster is flushed
at the end (lines 56-57). -/
def buildClusters : List PeptideHit → List PeptideHit → List (List PeptideHit)
  | cur, [] => if cur.isEmpty then [] else [cur]
  | [], h :: rest => buildClusters [h] rest
  | a :: cs, h :: rest =>
      if h.startPosition ≤ a.startPosition + 79 then
        buildClusters (a :: (cs ++ [h])) rest
      else
        (a :: cs) :: buildClusters [h] rest

/-- `df_cluster["StartPosition"].min()` (line 64). -/
def minStart : List PeptideHit → Int
  | [] => 0
  | h :: t => t.foldl (fun m x => min m x.startPosition) h.startPosition

/-- One member's summand of `peptides_total_size` (lines 69-74):
`AdjustedEnd - AdjustedStart + 1` with
`AdjustedStart = StartPosition.clip(lower=cluster_start)` and
`AdjustedEnd = EndPosition.clip(upper=cluster_end)`. -/
def contribution (ws we : Int) (h : PeptideHit) : Int :=
  min h.endPosition we - max h.startPosition ws + 1

/-- `peptides_total_size` of a cluster (lines 72-74), with
`cluster_start = minStart c` and `cluster_end = cluster_start + 79`
(line 65). -/
def clusterTotal (c : List PeptideHit) : Int :=
  (c.map (contribution (minStart c) (minStart c + 79))).sum

/-- `identity = (peptides_total_size / cluster_total_size) * 100` with
`cluster_total_size = 80` (lines 76-77). -/
def clusterIdentity (c : List PeptideHit) : ℚ :=
  (clusterTotal c : ℚ) / 80 * 100

/-- The label of lines 82-84: `"putative allergen" if x >= 35 else "n/a"`. -/
def clusterLabel (c : List PeptideHit) : String :=
  if (35 : ℚ) ≤ clusterIdentity c then "putative allergen" else "n/a"

/-- Lines 61-85: a cluster contributes its annotated rows only when
`len(cluster) > 1`; each surviving member is emitted once, in cluster
order, carrying the shared derived columns. -/
def emitCluster (c : List PeptideHit) : List OutputRow :=
  if 1 < c.length then
    c.map (fun h =>
      { hit := h, clusterTotalSize := 80, peptidesTotalSize := clusterTotal c,
        identity := clusterIdentity c, putativeAllergen := clusterLabel c })
  else []

/-- The whole of `find_clusters` (lines 37-87) applied to one group:
sort by start position, sweep into clusters, concatenate the surviving
clusters' annotated rows. -/
def findClusters (group : List PeptideHit) : List OutputRow :=
  ((buildClusters [] (group.insertionSort startLE)).map emitCluster).flatten

/-- The `["Species", "ProteinAccession"]` group key (line 34). -/
def groupKey (h : PeptideHit) : String × String :=
  (h.species, h.proteinAccession)

/-- Lexicographic order on group keys: pandas `groupby` (with its default
`sort=True`) iterates the groups in sorted key order. -/
def keyLE (a b : String × String) : Prop :=
  a.1 < b.1 ∨ (a.1 = b.1 ∧ (a.2 < b.2 ∨ a.2 = b.2))

instance : DecidableRel keyLE := fun a b => by
  unfold keyLE
  infer_instance

/-- The distinct group keys of the input, in the order pandas `groupby`
iterates them (sorted ascending). -/
def groupKeys (hits : List PeptideHit) : List (String × String) :=
  ((hits.map groupKey).dedup).insertionSort keyLE

/-- `grouped.apply(find_clusters)` (lines 34 and 90): run `find_clusters`
on each group's rows (kept in input order, as pandas does) and
concatenate the per-group results in key order. -/
def identifyClusters (hits : List PeptideHit) : List OutputRow :=
  ((groupKeys hits).map (fun k =>
    findClusters (hits.filter (fun h => decide (groupKey h = k))))).flatten

/-- The clusters the sweep forms for one group key of the input. -/
def clustersOf (hits : List PeptideHit) (k : String × String) :
    List (List PeptideHit) :=
  buildClusters [] ((hits.filter (fun h => decide (groupKey h = k))).insertionSort startLE)

/-- The admission test of line 48, as a Boolean predicate on the incoming
row given the cluster's first member `a`. -/
def inWindow (a h : PeptideHit) : Bool :=
  decide (h.startPosition ≤ a.startPosition + 79)

/-- Scenario input of the spec (section 8): one group with peptides at
(1,20), (10,30), (50,70), (95,110). -/
def hitA : PeptideHit :=
  { species := "Tm", proteinAccession := "P1", peptideSequence := "pepA",
    startPosition := 1, endPosition := 20 }

def hitB : PeptideHit :=
  { species := "Tm", proteinAccession := "P1", peptideSequence := "pepB",
    startPosition := 10, endPosition := 30 }

def hitC : PeptideHit :=
  { species := "Tm", proteinAccession := "P1", peptideSequence := "pepC",
    startPosition := 50, endPosition := 70 }

def hitD : PeptideHit :=
  { species := "Tm", proteinAccession := "P1", peptideSequence := "pepD",
    startPosition := 95, endPosition := 110 }

def scenarioHits : List PeptideHit := [hitA, hitB, hitC, hitD]

/-- Expected annotated rows for the surviving cluster of `scenarioHits`:
covered residues 62, identity 62/80*100 = 155/2 = 77.5. -/
def rowA : OutputRow :=
  { hit := hitA, clusterTotalSize := 80, peptidesTotalSize := 62,
    identity := 155/2, putativeAllergen := "putative allergen" }

def rowB : OutputRow :=
  { hit := hitB, clusterTotalSize := 80, peptidesTotalSize := 62,
    identity := 155/2, putativeAllergen := "putative allergen" }

def rowC : OutputRow :=
  { hit := hitC, clusterTotalSize := 80, peptidesTotalSize := 62,
    identity := 155/2, putativeAllergen := "putative allergen" }

/-- Boundary-scenario peptides: starts 10, 89 (exactly 79 apart, joins)
and 90 (starts a new cluster). -/
def hitE : PeptideHit :=
  { species := "Tm", proteinAccession := "P1", peptideSequence := "pepE",
    startPosition := 10, endPosition := 25 }

def hitF : PeptideHit :=
  { species := "Tm", proteinAccession := "P1", peptideSequence := "pepF",
    startPosition := 89, endPosition := 100 }

def hitG : PeptideHit :=
  { species := "Tm", proteinAccession := "P1", peptideSequence := "pepG",
    startPosition := 90, endPosition := 100 }

/-- Two distinct peptides covering the same whole window [1,80]: their
clipped contributions are summed without merging the overlap, so the
cluster's identity is 160/80*100 = 200. -/
def hitX : PeptideHit :=
  { species := "Tm", proteinAccession := "P1", peptideSequence := "pepX",
    startPosition := 1, endPosition := 80 }

def hitY : PeptideHit :=
  { species := "Tm", proteinAccession := "P1", peptideSequence := "pepY",
    startPosition := 1, endPosition := 80 }

def overlapHits : List PeptideHit := [hitX, hitY]

theorem buildClusters_go (t : List PeptideHit) :
    ∀ (a : PeptideHit) (pre : List PeptideHit),
      buildClusters (a :: pre) t =
        (a :: (pre ++ t.takeWhile (inWindow a))) ::
          buildClusters [] (t.dropWhile (inWindow a)) := by
  induction t with
  | nil =>
      intro a pre
      simp [buildClusters]
  | cons h rest ih =>
      intro a pre
      by_cases hw : h.startPosition ≤ a.startPosition + 79
      · rw [buildClusters, if_pos hw, ih a (pre ++ [h])]
        simp [List.takeWhile_cons, List.dropWhile_cons, inWindow, hw]
      · rw [buildClusters, if_neg hw]
        have hb : inWindow a h = false := by simp [inWindow, hw]
        simp only [List.takeWhile_cons, List.dropWhile_cons, hb,
          Bool.false_eq_true, if_false, List.append_nil]
        rfl

theorem buildClusters_cons (a : PeptideHit) (t : List PeptideHit) :
    buildClusters [] (a :: t) =
      (a :: t.takeWhile (inWindow a)) ::
        buildClusters [] (t.dropWhile (inWindow a)) := by
  rw [show buildClusters [] (a :: t) = buildClusters [a] t from rfl,
    buildClusters_go t a []]
  simp

theorem flatten_buildClusters :
    ∀ (s : List PeptideHit), (buildClusters [] s).flatten = s
  | [] => rfl
  | a :: t => by
      rw [buildClusters_cons, List.flatten_cons,
        flatten_buildClusters (t.dropWhile (inWindow a))]
      exact congrArg (a :: ·) (List.takeWhile_append_dropWhile (inWindow a) t)
termination_by s => s.length
decreasing_by
  simpa [Nat.lt_succ_iff] using (List.dropWhile_sublist (l := t) (inWindow a)).length_le

theorem takeWhile_eq_filter_of_sorted (a : PeptideHit) :
    ∀ {l : List PeptideHit}, List.Pairwise startLE l →
      l.takeWhile (inWindow a) = l.filter (inWindow a) := by
  intro l hl
  induction l with
  | nil => rfl
  | cons x xs ih =>
      rcases List.pairwise_cons.mp hl with ⟨hx, hxs⟩
      by_cases hw : x.startPosition ≤ a.startPosition + 79
      · have hb : inWindow a x = true := by simp [inWindow, hw]
        simp only [List.takeWhile_cons, List.filter_cons, hb, if_pos, ih hxs]
      · have hb : inWindow a x = false := by simp [inWindow, hw]
        simp only [List.takeWhile_cons, List.filter_cons, hb,
          Bool.false_eq_true, if_false]
        symm
        rw [List.filter_eq_nil_iff]
        intro y hy hc
        apply hw
        simp only [inWindow, decide_eq_true_eq] at hc
        exact le_trans (hx y hy) hc

theorem dropWhile_eq_filter_of_sorted (a : PeptideHit) :
    ∀ {l : List PeptideHit}, List.Pairwise startLE l →
      l.dropWhile (inWindow a) = l.filter (fun h => ! inWindow a h) := by
  intro l hl
  induction l with
  | nil => rfl
  | cons x xs ih =>
      rcases List.pairwise_cons.mp hl with ⟨hx, hxs⟩
      by_cases hw : x.startPosition ≤ a.startPosition + 79
      · have hb : inWindow a x = true := by simp [inWindow, hw]
        simp only [List.dropWhile_cons, List.filter_cons, hb, if_pos,
          Bool.not_true, Bool.false_eq_true, if_false]
        exact ih hxs
      · have hb : inWindow a x = false := by simp [inWindow, hw]
        simp only [List.dropWhile_cons, List.filter_cons, hb,
          Bool.false_eq_true, if_false, Bool.not_false, if_true]
        congr 1
        symm
        rw [List.filter_eq_self]
        intro y hy
        simp only [Bool.not_eq_true', inWindow, decide_eq_false_iff_not]
        intro hc
        exact hw (le_trans (hx y hy) hc)

theorem foldlMin_le (t : List PeptideHit) :
    ∀ (m : Int), t.foldl (fun m x => min m x.startPosition) m ≤ m ∧
      ∀ x ∈ t, t.foldl (fun m x => min m x.startPosition) m ≤ x.startPosition := by
  induction t with
  | nil => exact fun m => ⟨le_refl m, by simp⟩
  | cons y ys ih =>
      intro m
      refine ⟨le_trans (ih (min m y.startPosition)).1 (min_le_left _ _), ?_⟩
      intro x hx
      rcases List.mem_cons.mp hx with h | h
      · subst h
        exact le_trans (ih (min m x.startPosition)).1 (min_le_right _ _)
      · exact (ih (min m y.startPosition)).2 x h

theorem foldlMin_mem (t : List PeptideHit) :
    ∀ (m : Int), t.foldl (fun m x => min m x.startPosition) m = m ∨
      ∃ x ∈ t, t.foldl (fun m x => min m x.startPosition) m = x.startPosition := by
  induction t with
  | nil => exact fun m => Or.inl rfl
  | cons y ys ih =>
      intro m
      rcases ih (min m y.startPosition) with h | ⟨x, hx, hfx⟩
      · rcases min_cases m y.startPosition with ⟨he, _⟩ | ⟨he, _⟩
        · exact Or.inl (by rw [List.foldl_cons, h, he])
        · exact Or.inr ⟨y, List.mem_cons_self y ys, by rw [List.foldl_cons, h, he]⟩
      · exact Or.inr ⟨x, List.mem_cons_of_mem y hx, hfx⟩

theorem minStart_le (c : List PeptideHit) :
    ∀ x ∈ c, minStart c ≤ x.startPosition := by
  cases c with
  | nil => simp
  | cons a t =>
      intro x hx
      rcases List.mem_cons.mp hx with h | h
      · subst h
        exact (foldlMin_le t x.startPosition).1
      · exact (foldlMin_le t a.startPosition).2 x h

theorem minStart_mem (a : PeptideHit) (t : List PeptideHit) :
    ∃ x ∈ a :: t, minStart (a :: t) = x.startPosition := by
  rcases foldlMin_mem t a.startPosition with h | ⟨x, hx, hfx⟩
  · exact ⟨a, List.mem_cons_self a t, h⟩
  · exact ⟨x, List.mem_cons_of_mem a hx, hfx⟩

theorem minStart_eq_of_perm {c c' : List PeptideHit} (h : c.Perm c') :
    minStart c = minStart c' := by
  cases c with
  | nil =>
      cases c' with
      | nil => rfl
      | cons b t' => exact absurd h.symm (by simp)
  | cons a t =>
      cases c' with
      | nil => exact absurd h (by simp)
      | cons b t' =>
          rcases minStart_mem a t with ⟨x, hx, hex⟩
          rcases minStart_mem b t' with ⟨y, hy, hey⟩
          refine le_antisymm ?_ ?_
          · rw [hey]
            exact minStart_le _ y (h.mem_iff.mpr hy)
          · rw [hex]
            exact minStart_le _ x (h.symm.mem_iff.mpr hx)

theorem minStart_of_head_min {a : PeptideHit} {t : List PeptideHit}
    (hmin : ∀ x ∈ t, a.startPosition ≤ x.startPosition) :
    minStart (a :: t) = a.startPosition := by
  rcases minStart_mem a t with ⟨x, hx, hex⟩
  refine le_antisymm (minStart_le _ a (List.mem_cons_self a t)) ?_
  rw [hex]
  rcases List.mem_cons.mp hx with h | h
  · subst h
    exact le_refl _
  · exact hmin x h

/-- Shape of every cluster delivered by the sweep on a list sorted by start
position: it is nonempty, its head is the member that seeded it, and every
member's start position lies in the window `[head.start, head.start + 79]`. -/
theorem mem_buildClusters_sorted :
    ∀ (s : List PeptideHit), List.Pairwise startLE s →
      ∀ c ∈ buildClusters [] s, ∃ a t, c = a :: t ∧
        ∀ x ∈ c, a.startPosition ≤ x.startPosition ∧
          x.startPosition ≤ a.startPosition + 79
  | [], _, c, hc => absurd hc (by simp [buildClusters])
  | a :: t, hs, c, hc => by
      rcases List.pairwise_cons.mp hs with ⟨ha, ht⟩
      rw [buildClusters_cons] at hc
      rcases List.mem_cons.mp hc with h | h
      · subst h
        refine ⟨a, t.takeWhile (inWindow a), rfl, ?_⟩
        intro x hx
        rcases List.mem_cons.mp hx with h | h
        · subst h
          exact ⟨le_refl _, by omega⟩
        · have hxt : x ∈ t := (List.takeWhile_sublist (inWindow a)).mem h
          have hxw := List.mem_takeWhile_imp h
          simp only [inWindow, decide_eq_true_eq] at hxw
          exact ⟨ha x hxt, hxw⟩
      · exact mem_buildClusters_sorted (t.dropWhile (inWindow a))
          (List.Pairwise.sublist (List.dropWhile_sublist (inWindow a)) ht) c h
termination_by s => s.length
decreasing_by
  simpa [Nat.lt_succ_iff] using (List.dropWhile_sublist (l := t) (inWindow a)).length_le

/-- Two sorted arrangements of the same multiset of hits are cut by the
sweep into pointwise-permuted clusters: the tie order chosen by the sort
can only permute rows inside a cluster, never move one across clusters. -/
theorem buildClusters_perm :
    ∀ (s s' : List PeptideHit), s.Perm s' → List.Pairwise startLE s →
      List.Pairwise startLE s' →
      List.Forall₂ (fun c c' => c.Perm c') (buildClusters [] s) (buildClusters [] s')
  | [], s', hp, _, _ => by
      have : s' = [] := (hp.symm).eq_nil
      subst this
      exact List.Forall₂.nil
  | a :: t, s', hp, hs, hs' => by
      cases s' with
      | nil => exact absurd hp.symm (by simp)
      | cons b t' =>
          rcases List.pairwise_cons.mp hs with ⟨hat, htt⟩
          rcases List.pairwise_cons.mp hs' with ⟨hbt, htt'⟩
          have hba : b.startPosition = a.startPosition := by
            have hb : b ∈ a :: t := hp.mem_iff.mpr (List.mem_cons_self b t')
            have ha : a ∈ b :: t' := hp.mem_iff.mp (List.mem_cons_self a t)
            have h1 : a.startPosition ≤ b.startPosition := by
              rcases List.mem_cons.mp hb with h | h
              · rw [h]
              · exact hat b h
            have h2 : b.startPosition ≤ a.startPosition := by
              rcases List.mem_cons.mp ha with h | h
              · rw [h]
              · exact hbt a h
            exact le_antisymm h2 h1
          have hQb : inWindow b = inWindow a := by
            funext h
            simp [inWindow, hba]
          have hQa : inWindow a a = true := by
            simp only [inWindow, decide_eq_true_eq]
            omega
          have hQab : inWindow a b = true := by
            simp only [inWindow, decide_eq_true_eq]
            omega
          rw [buildClusters_cons, buildClusters_cons, hQb,
            takeWhile_eq_filter_of_sorted a htt, takeWhile_eq_filter_of_sorted a htt',
            dropWhile_eq_filter_of_sorted a htt, dropWhile_eq_filter_of_sorted a htt']
          have hflt : (List.filter (inWindow a) (a :: t)).Perm
              (List.filter (inWindow a) (b :: t')) := hp.filter (inWindow a)
          rw [List.filter_cons, List.filter_cons, hQa, hQab] at hflt
          simp only [if_pos] at hflt
          have hrest : (List.filter (fun h => ! inWindow a h) (a :: t)).Perm
              (List.filter (fun h => ! inWindow a h) (b :: t')) :=
            hp.filter (fun h => ! inWindow a h)
          rw [List.filter_cons, List.filter_cons] at hrest
          simp only [hQa, hQab, Bool.not_true, Bool.false_eq_true, if_false] at hrest
          exact List.Forall₂.cons hflt
            (buildClusters_perm (t.filter (fun h => ! inWindow a h))
              (t'.filter (fun h => ! inWindow a h)) hrest
              (List.Pairwise.sublist (List.filter_sublist t) htt)
              (List.Pairwise.sublist (List.filter_sublist t') htt'))
termination_by s => s.length
decreasing_by
  simpa [Nat.lt_succ_iff] using (List.filter_sublist (p := fun h => ! inWindow a h) t).length_le

theorem clusterTotal_eq_of_perm {c c' : List PeptideHit} (h : c.Perm c') :
    clusterTotal c = clusterTotal c' := by
  unfold clusterTotal
  rw [minStart_eq_of_perm h]
  exact (h.map (contribution (minStart c') (minStart c' + 79))).sum_eq

theorem clusterIdentity_eq_of_perm {c c' : List PeptideHit} (h : c.Perm c') :
    clusterIdentity c = clusterIdentity c' := by
  unfold clusterIdentity
  rw [clusterTotal_eq_of_perm h]

theorem clusterLabel_eq_of_perm {c c' : List PeptideHit} (h : c.Perm c') :
    clusterLabel c = clusterLabel c' := by
  unfold clusterLabel
  rw [clusterIdentity_eq_of_perm h]

theorem emitCluster_perm {c c' : List PeptideHit} (h : c.Perm c') :
    (emitCluster c).Perm (emitCluster c') := by
  unfold emitCluster
  rw [h.length_eq]
  by_cases hl : 1 < c'.length
  · rw [if_pos hl, if_pos hl]
    simp only [clusterTotal_eq_of_perm h, clusterIdentity_eq_of_perm h,
      clusterLabel_eq_of_perm h]
    exact h.map _
  · rw [if_neg hl, if_neg hl]

theorem forall₂_emit {L L' : List (List PeptideHit)}
    (h : List.Forall₂ (fun c c' => c.Perm c') L L') :
    List.Forall₂ (fun u v => u.Perm v) (L.map emitCluster) (L'.map emitCluster) := by
  induction h with
  | nil => exact List.Forall₂.nil
  | cons hc _ ih => exact List.Forall₂.cons (emitCluster_perm hc) ih

theorem findClusters_perm {g g' : List PeptideHit} (h : g.Perm g') :
    (findClusters g).Perm (findClusters g') := by
  have hp : (g.insertionSort startLE).Perm (g'.insertionSort startLE) :=
    ((List.perm_insertionSort startLE g).trans h).trans
      (List.perm_insertionSort startLE g').symm
  have hf2 := buildClusters_perm (g.insertionSort startLE) (g'.insertionSort startLE)
    hp (List.sorted_insertionSort startLE g) (List.sorted_insertionSort startLE g')
  unfold findClusters
  exact List.Perm.flatten_congr (forall₂_emit hf2)

theorem groupKeys_perm {hits hits' : List PeptideHit} (h : hits.Perm hits') :
    (groupKeys hits).Perm (groupKeys hits') := by
  unfold groupKeys
  exact ((List.perm_insertionSort keyLE _).trans ((h.map groupKey).dedup)).trans
    (List.perm_insertionSort keyLE _).symm

theorem mapGroups_forall₂ {hits hits' : List PeptideHit} (h : hits.Perm hits')
    (ks : List (String × String)) :
    List.Forall₂ (fun u v => u.Perm v)
      (ks.map (fun k => findClusters (hits.filter (fun x => decide (groupKey x = k)))))
      (ks.map (fun k => findClusters (hits'.filter (fun x => decide (groupKey x = k))))) := by
  induction ks with
  | nil => exact List.Forall₂.nil
  | cons k ks ih =>
      exact List.Forall₂.cons (findClusters_perm (h.filter _)) ih

theorem identifyClusters_perm {hits hits' : List PeptideHit} (h : hits.Perm hits') :
    (identifyClusters hits).Perm (identifyClusters hits') := by
  unfold identifyClusters
  refine List.Perm.trans (List.Perm.flatten_congr (mapGroups_forall₂ h (groupKeys hits)))
    (List.Perm.flatten ((groupKeys_perm h).map _))

theorem mem_of_mem_cluster {s c : List PeptideHit} {x : PeptideHit}
    (hc : c ∈ buildClusters [] s) (hx : x ∈ c) : x ∈ s := by
  rw [← flatten_buildClusters s]
  exact List.mem_flatten.mpr ⟨c, hc, hx⟩

theorem hit_mem_of_mem_emit {c : List PeptideHit} {r : OutputRow}
    (hr : r ∈ emitCluster c) : r.hit ∈ c := by
  unfold emitCluster at hr
  split at hr
  · rw [List.mem_map] at hr
    obtain ⟨h0, hh0, hr0⟩ := hr
    rw [← hr0]
    exact hh0
  · exact absurd hr (List.not_mem_nil r)

theorem row_eq_of_mem_emit {c : List PeptideHit} {r : OutputRow}
    (hr : r ∈ emitCluster c) :
    1 < c.length ∧ r.clusterTotalSize = 80 ∧
      r.peptidesTotalSize = clusterTotal c ∧ r.identity = clusterIdentity c ∧
      r.putativeAllergen = clusterLabel c := by
  unfold emitCluster at hr
  split at hr
  next hl =>
    rw [List.mem_map] at hr
    obtain ⟨h0, _, hr0⟩ := hr
    rw [← hr0]
    exact ⟨hl, rfl, rfl, rfl, rfl⟩
  next => exact absurd hr (List.not_mem_nil r)

theorem hit_mem_of_mem_findClusters {g : List PeptideHit} {r : OutputRow}
    (hr : r ∈ findClusters g) : r.hit ∈ g := by
  unfold findClusters at hr
  rw [List.mem_flatten] at hr
  obtain ⟨ec, hec, hrec⟩ := hr
  rw [List.mem_map] at hec
  obtain ⟨c, hc, hec⟩ := hec
  rw [← hec] at hrec
  exact (List.perm_insertionSort startLE g).subset
    (mem_of_mem_cluster hc (hit_mem_of_mem_emit hrec))

/-- Every output row of the identifier comes from one surviving cluster of
its own group's sweep, and carries that cluster's shared derived columns. -/
theorem mem_identifyClusters {hits : List PeptideHit} {r : OutputRow}
    (hr : r ∈ identifyClusters hits) :
    ∃ k c, c ∈ clustersOf hits k ∧ 1 < c.length ∧ r.hit ∈ c ∧
      r.clusterTotalSize = 80 ∧ r.peptidesTotalSize = clusterTotal c ∧
      r.identity = clusterIdentity c ∧ r.putativeAllergen = clusterLabel c ∧
      ∀ x ∈ c, x ∈ hits ∧ groupKey x = k := by
  unfold identifyClusters at hr
  rw [List.mem_flatten] at hr
  obtain ⟨part, hpart, hrp⟩ := hr
  rw [List.mem_map] at hpart
  obtain ⟨k, _, hkeq⟩ := hpart
  rw [← hkeq] at hrp
  unfold findClusters at hrp
  rw [List.mem_flatten] at hrp
  obtain ⟨ec, hec, hrec⟩ := hrp
  rw [List.mem_map] at hec
  obtain ⟨c, hc, heceq⟩ := hec
  rw [← heceq] at hrec
  obtain ⟨hl, h80, htot, hid, hlab⟩ := row_eq_of_mem_emit hrec
  refine ⟨k, c, hc, hl, hit_mem_of_mem_emit hrec, h80, htot, hid, hlab, ?_⟩
  intro x hx
  have hxf : x ∈ hits.filter (fun h => decide (groupKey h = k)) :=
    (List.perm_insertionSort startLE _).subset (mem_of_mem_cluster hc hx)
  rw [List.mem_filter, decide_eq_true_eq] at hxf
  exact hxf

/-- Admission-rule bounds for a cluster of one group's sweep: the head
seeded the cluster, the window anchor `minStart` is the head's start, and
every member starts inside `[anchor, anchor + 79]`. -/
theorem clustersOf_bounds {hits : List PeptideHit} {k : String × String}
    {c : List PeptideHit} (hc : c ∈ clustersOf hits k) :
    ∃ a t, c = a :: t ∧ minStart c = a.startPosition ∧
      ∀ x ∈ c, a.startPosition ≤ x.startPosition ∧
        x.startPosition ≤ a.startPosition + 79 := by
  obtain ⟨a, t, hct, hbounds⟩ := mem_buildClusters_sorted _
    (List.sorted_insertionSort startLE _) c hc
  refine ⟨a, t, hct, ?_, hbounds⟩
  rw [hct]
  exact minStart_of_head_min (fun x hx =>
    (hbounds x (by rw [hct]; exact List.mem_cons_of_mem a hx)).1)

theorem contribution_ge_one {hits : List PeptideHit} {k : String × String}
    {c : List PeptideHit} (hc : c ∈ clustersOf hits k) {x : PeptideHit}
    (hx : x ∈ c) (hesx : x.startPosition ≤ x.endPosition) :
    1 ≤ contribution (minStart c) (minStart c + 79) x := by
  obtain ⟨a, t, _, hmin, hbounds⟩ := clustersOf_bounds hc
  obtain ⟨hlo, hhi⟩ := hbounds x hx
  unfold contribution
  rw [hmin]
  omega

theorem clusterTotal_nonneg {hits : List PeptideHit} {k : String × String}
    {c : List PeptideHit} (hc : c ∈ clustersOf hits k)
    (hes : ∀ x ∈ c, x.startPosition ≤ x.endPosition) :
    0 ≤ clusterTotal c := by
  unfold clusterTotal
  refine List.sum_nonneg ?_
  intro y hy
  rw [List.mem_map] at hy
  obtain ⟨x, hx, hxy⟩ := hy
  rw [← hxy]
  exact le_trans (by norm_num) (contribution_ge_one hc hx (hes x hx))

theorem clusterIdentity_nonneg {hits : List PeptideHit} {k : String × String}
    {c : List PeptideHit} (hc : c ∈ clustersOf hits k)
    (hes : ∀ x ∈ c, x.startPosition ≤ x.endPosition) :
    0 ≤ clusterIdentity c := by
  unfold clusterIdentity
  have h0 : (0 : ℚ) ≤ (clusterTotal c : ℚ) := by
    exact_mod_cast clusterTotal_nonneg hc hes
  exact mul_nonneg (div_nonneg h0 (by norm_num)) (by norm_num)

/-- C1 (amended): for every input whose hits satisfy the preconditions
(end_position >= start_position), every emitted cluster's identity_percent
is at least 0. The claimed upper bound 100 does not hold: per-member
clipped contributions are summed without merging overlaps, so overlapping
members can push identity_percent above 100. -/
theorem claim1_identity_nonneg (hits : List PeptideHit)
    (hpre : ∀ h ∈ hits, h.startPosition ≤ h.endPosition) :
    ∀ r ∈ identifyClusters hits, 0 ≤ r.identity := by
  intro r hr
  obtain ⟨k, c, hc, _, _, _, _, hid, _, hmem⟩ := mem_identifyClusters hr
  rw [hid]
  exact clusterIdentity_nonneg hc (fun x hx => hpre x (hmem x hx).1)

/-- C1 counterexample: `overlapHits` satisfies the preconditions (integer
positions, end >= start) yet its emitted cluster has identity_percent
200 > 100, refuting "identity_percent lies in [0, 100]". -/
theorem claim1_identity_can_exceed_100 :
    (∀ h ∈ overlapHits, h.startPosition ≤ h.endPosition) ∧
    ∃ r ∈ identifyClusters overlapHits, 100 < r.identity := by
  have hev : identifyClusters overlapHits =
      [{ hit := hitX, clusterTotalSize := 80, peptidesTotalSize := 160,
         identity := 200, putativeAllergen := "putative allergen" },
       { hit := hitY, clusterTotalSize := 80, peptidesTotalSize := 160,
         identity := 200, putativeAllergen := "putative allergen" }] := by
    norm_num [identifyClusters, groupKeys, groupKey, findClusters, clustersOf,
      buildClusters, emitCluster, clusterTotal, clusterIdentity, clusterLabel,
      minStart, contribution, startLE, keyLE, List.insertionSort,
      List.orderedInsert, List.dedup, overlapHits, hitX, hitY]
  refine ⟨by decide, ?_⟩
  rw [hev]
  exact ⟨_, List.mem_cons_self _ _, by norm_num⟩

theorem claim1_witness :
    (∀ h ∈ scenarioHits, h.startPosition ≤ h.endPosition) ∧ 0 ≤ rowA.identity :=
  ⟨by decide, claim1_identity_nonneg scenarioHits (by decide) rowA (by
    norm_num [identifyClusters, groupKeys, groupKey, findClusters, clustersOf,
      buildClusters, emitCluster, clusterTotal, clusterIdentity, clusterLabel,
      minStart, contribution, startLE, keyLE, List.insertionSort,
      List.orderedInsert, List.dedup, scenarioHits, hitA, hitB, hitC, hitD,
      rowA])⟩

/-- C2: on the spec's scenario group (starts 1, 10, 50, 95; ends 20, 30,
70, 110) the sweep forms the cluster {1-20, 10-30, 50-70} (window [1,80];
95 > 1+79 excluded) plus the singleton {95-110}, which is discarded; the
surviving cluster is annotated with covered residues 62, identity
77.5 = 155/2, and the label "putative allergen". -/
theorem claim2_scenario_output :
    clustersOf scenarioHits (groupKey hitA) = [[hitA, hitB, hitC], [hitD]] ∧
    identifyClusters scenarioHits = [rowA, rowB, rowC] := by
  constructor
  · decide
  · norm_num [identifyClusters, groupKeys, groupKey, findClusters, clustersOf,
      buildClusters, emitCluster, clusterTotal, clusterIdentity, clusterLabel,
      minStart, contribution, startLE, keyLE, List.insertionSort,
      List.orderedInsert, List.dedup, scenarioHits, hitA, hitB, hitC, hitD,
      rowA, rowB, rowC]

/-- C3: every output row comes from a cluster of its group's sweep with at
least two members, and a cluster with at most one member is discarded
entirely, producing no output rows. -/
theorem claim3_no_singleton_rows :
    (∀ (hits : List PeptideHit) (r : OutputRow), r ∈ identifyClusters hits →
      ∃ k c, c ∈ clustersOf hits k ∧ r.hit ∈ c ∧ 2 ≤ c.length) ∧
    ∀ (c : List PeptideHit), c.length ≤ 1 → emitCluster c = [] := by
  constructor
  · intro hits r hr
    obtain ⟨k, c, hc, hl, hmem, _⟩ := mem_identifyClusters hr
    exact ⟨k, c, hc, hmem, hl⟩
  · intro c hc
    unfold emitCluster
    rw [if_neg (by omega)]

theorem claim3_witness :
    ∃ k c, c ∈ clustersOf scenarioHits k ∧ rowA.hit ∈ c ∧ 2 ≤ c.length :=
  claim3_no_singleton_rows.1 scenarioHits rowA (by
    norm_num [identifyClusters, groupKeys, groupKey, findClusters, clustersOf,
      buildClusters, emitCluster, clusterTotal, clusterIdentity, clusterLabel,
      minStart, contribution, startLE, keyLE, List.insertionSort,
      List.orderedInsert, List.dedup, scenarioHits, hitA, hitB, hitC, hitD,
      rowA])

/-- C4: in the sweep, a hit joins the current cluster exactly when its
start position is at most the cluster's first member's start position plus
79 (the code's branch on line 48), and the boundary is inclusive: starts
10 and 89 land in one cluster, while start 90 begins a new cluster. -/
theorem claim4_admission_boundary :
    (∀ (a : PeptideHit) (cs : List PeptideHit) (h : PeptideHit)
        (rest : List PeptideHit),
      buildClusters (a :: cs) (h :: rest) =
        if h.startPosition ≤ a.startPosition + 79 then
          buildClusters (a :: (cs ++ [h])) rest
        else
          (a :: cs) :: buildClusters [h] rest) ∧
    clustersOf [hitE, hitF] (groupKey hitE) = [[hitE, hitF]] ∧
    clustersOf [hitE, hitG] (groupKey hitE) = [[hitE], [hitG]] :=
  ⟨fun _ _ _ _ => rfl, by decide, by decide⟩

/-- C5: an output row is labeled "putative allergen" exactly when its
identity_percent is at least 35, and "n/a" exactly when it is below 35. -/
theorem claim5_label_threshold (hits : List PeptideHit) (r : OutputRow)
    (hr : r ∈ identifyClusters hits) :
    (r.putativeAllergen = "putative allergen" ↔ 35 ≤ r.identity) ∧
    (r.putativeAllergen = "n/a" ↔ r.identity < 35) := by
  obtain ⟨k, c, _, _, _, _, _, hid, hlab, _⟩ := mem_identifyClusters hr
  rw [hid, hlab]
  unfold clusterLabel
  by_cases h35 : (35 : ℚ) ≤ clusterIdentity c
  · rw [if_pos h35]
    have hne : ("putative allergen" : String) ≠ "n/a" := by decide
    exact ⟨⟨fun _ => h35, fun _ => rfl⟩,
      ⟨fun hs => absurd hs hne, fun hlt => absurd h35 (not_le.mpr hlt)⟩⟩
  · rw [if_neg h35]
    have hne : ("n/a" : String) ≠ "putative allergen" := by decide
    exact ⟨⟨fun hs => absurd hs hne, fun h35x => absurd h35x h35⟩,
      ⟨fun _ => not_le.mp h35, fun _ => rfl⟩⟩

theorem claim5_witness :
    rowA.putativeAllergen = "putative allergen" ↔ 35 ≤ rowA.identity :=
  (claim5_label_threshold scenarioHits rowA (by
    norm_num [identifyClusters, groupKeys, groupKey, findClusters, clustersOf,
      buildClusters, emitCluster, clusterTotal, clusterIdentity, clusterLabel,
      minStart, contribution, startLE, keyLE, List.insertionSort,
      List.orderedInsert, List.dedup, scenarioHits, hitA, hitB, hitC, hitD,
      rowA])).1

/-- C6: every output row's cluster has window_start equal to the minimum
member start, window width exactly 79, covered residues equal to the sum
of the members' window-clipped interval lengths, and identity equal to
covered residues divided by 80 times 100. -/
theorem claim6_window_formulas (hits : List PeptideHit) (r : OutputRow)
    (hr : r ∈ identifyClusters hits) :
    ∃ k c, c ∈ clustersOf hits k ∧ r.hit ∈ c ∧
      (∃ x ∈ c, minStart c = x.startPosition) ∧
      (∀ x ∈ c, minStart c ≤ x.startPosition) ∧
      (minStart c + 79) - minStart c = 79 ∧
      r.peptidesTotalSize =
        (c.map (fun x => min x.endPosition (minStart c + 79) -
          max x.startPosition (minStart c) + 1)).sum ∧
      r.identity = (r.peptidesTotalSize : ℚ) / 80 * 100 := by
  obtain ⟨k, c, hc, hl, hmem, _, htot, hid, _, _⟩ := mem_identifyClusters hr
  refine ⟨k, c, hc, hmem, ?_, minStart_le c, by ring, ?_, ?_⟩
  · cases c with
    | nil => exact absurd hmem (List.not_mem_nil _)
    | cons a t => exact minStart_mem a t
  · rw [htot]
    rfl
  · rw [hid, htot]
    rfl

theorem claim6_witness :
    ∃ k c, c ∈ clustersOf scenarioHits k ∧ rowA.hit ∈ c ∧
      (∃ x ∈ c, minStart c = x.startPosition) ∧
      (∀ x ∈ c, minStart c ≤ x.startPosition) ∧
      (minStart c + 79) - minStart c = 79 ∧
      rowA.peptidesTotalSize =
        (c.map (fun x => min x.endPosition (minStart c + 79) -
          max x.startPosition (minStart c) + 1)).sum ∧
      rowA.identity = (rowA.peptidesTotalSize : ℚ) / 80 * 100 :=
  claim6_window_formulas scenarioHits rowA (by
    norm_num [identifyClusters, groupKeys, groupKey, findClusters, clustersOf,
      buildClusters, emitCluster, clusterTotal, clusterIdentity, clusterLabel,
      minStart, contribution, startLE, keyLE, List.insertionSort,
      List.orderedInsert, List.dedup, scenarioHits, hitA, hitB, hitC, hitD,
      rowA])

/-- C7: in any cluster formed by the sweep, each member's start position
is at most window_start + 79 (the admission rule), so for hits with
end_position >= start_position the clipped contribution
(AdjustedEnd - AdjustedStart + 1) is never negative — no runtime clamp is
needed. -/
theorem claim7_contribution_nonneg (hits : List PeptideHit)
    (k : String × String) (c : List PeptideHit) (hc : c ∈ clustersOf hits k)
    (x : PeptideHit) (hx : x ∈ c) (hes : x.startPosition ≤ x.endPosition) :
    x.startPosition ≤ minStart c + 79 ∧
    0 ≤ contribution (minStart c) (minStart c + 79) x := by
  obtain ⟨a, t, _, hmin, hbounds⟩ := clustersOf_bounds hc
  refine ⟨?_, le_trans (by norm_num) (contribution_ge_one hc hx hes)⟩
  rw [hmin]
  exact (hbounds x hx).2

theorem claim7_witness :
    hitA.startPosition ≤ minStart [hitA, hitB, hitC] + 79 ∧
    0 ≤ contribution (minStart [hitA, hitB, hitC])
      (minStart [hitA, hitB, hitC] + 79) hitA :=
  claim7_contribution_nonneg scenarioHits (groupKey hitA) [hitA, hitB, hitC]
    (by decide) hitA (by decide) (by decide)

/-- C8: the identifier is a function of the input multiset: permuting the
input rows (and hence re-running it on any row order of the same input)
yields the same multiset of annotated output rows. -/
theorem claim8_multiset_invariance (hits hitsP : List PeptideHit)
    (h : hits.Perm hitsP) :
    (↑(identifyClusters hits) : Multiset OutputRow) =
      (↑(identifyClusters hitsP) : Multiset OutputRow) := by
  rw [Multiset.coe_eq_coe]
  exact identifyClusters_perm h

theorem claim8_witness :
    (↑(identifyClusters [hitB, hitA, hitC, hitD]) : Multiset OutputRow) =
      (↑(identifyClusters scenarioHits) : Multiset OutputRow) :=
  claim8_multiset_invariance [hitB, hitA, hitC, hitD] scenarioHits
    (List.Perm.swap hitA hitB [hitC, hitD])

theorem findClusters_singleton (h : PeptideHit) : findClusters [h] = [] := by
  simp [findClusters, List.insertionSort, buildClusters, emitCluster]

/-- C9: the identifier never fails on inputs with no surviving cluster: on
an empty input and on a single-hit input it returns the empty output, and
a group holding exactly one peptide contributes zero output rows. -/
theorem claim9_empty_success :
    identifyClusters [] = [] ∧
    (∀ h : PeptideHit, identifyClusters [h] = []) ∧
    ∀ (hits : List PeptideHit) (k : String × String),
      (hits.filter (fun h => decide (groupKey h = k))).length = 1 →
      (identifyClusters hits).filter (fun r => decide (groupKey r.hit = k)) = [] := by
  refine ⟨rfl, ?_, ?_⟩
  · intro h
    have h1 : groupKeys [h] = [groupKey h] := by
      simp [groupKeys, List.dedup, List.insertionSort, List.orderedInsert]
    unfold identifyClusters
    rw [h1]
    simp [findClusters_singleton]
  · intro hits k hlen
    unfold identifyClusters
    rw [List.filter_flatten, List.map_map]
    rw [List.flatten_eq_nil_iff]
    intro l hl
    rw [List.mem_map] at hl
    obtain ⟨kp, _, hleq⟩ := hl
    rw [← hleq]
    by_cases hkk : kp = k
    · subst hkk
      obtain ⟨h0, hh0⟩ := List.length_eq_one.mp hlen
      simp only [Function.comp_apply, hh0, findClusters_singleton,
        List.filter_nil]
    · simp only [Function.comp_apply]
      rw [List.filter_eq_nil_iff]
      intro r hr hq
      rw [decide_eq_true_eq] at hq
      have hrk : groupKey r.hit = kp := by
        have hrm := hit_mem_of_mem_findClusters hr
        rw [List.mem_filter, decide_eq_true_eq] at hrm
        exact hrm.2
      exact hkk (by rw [← hrk, hq])

theorem claim9_witness :
    ([hitA].filter (fun h => decide (groupKey h = groupKey hitA))).length = 1 ∧
    (identifyClusters [hitA]).filter
      (fun r => decide (groupKey r.hit = groupKey hitA)) = [] :=
  ⟨by decide, claim9_empty_success.2.2 [hitA] (groupKey hitA) (by decide)⟩

theorem countP_ne_zero_of_sum_zero (ns : List Nat) (h : ns.sum = 0) :
    ns.countP (fun n => decide (n ≠ 0)) = 0 := by
  rw [List.countP_eq_zero]
  intro a ha
  have ha0 : a = 0 := by
    have := List.single_le_sum (l := ns) (fun x _ => Nat.zero_le x) a ha
    omega
  simp [ha0]

theorem countP_ne_zero_of_sum_one :
    ∀ (ns : List Nat), ns.sum = 1 → ns.countP (fun n => decide (n ≠ 0)) = 1 := by
  intro ns
  induction ns with
  | nil => intro h; simp at h
  | cons n ns ih =>
      intro h
      rw [List.sum_cons] at h
      rw [List.countP_cons]
      by_cases hn : n = 0
      · subst hn
        rw [ih (by omega)]
        simp
      · have h0 := countP_ne_zero_of_sum_zero ns (by omega)
        rw [h0]
        simp [hn]

theorem sum_map_eq_single (ks : List (String × String))
    (f : String × String → Nat) (k0 : String × String)
    (hcount : ks.countP (fun k => decide (k = k0)) = 1)
    (hzero : ∀ k ∈ ks, k ≠ k0 → f k = 0) :
    (ks.map f).sum = f k0 := by
  induction ks with
  | nil => simp at hcount
  | cons k ks ih =>
      rw [List.map_cons, List.sum_cons]
      rw [List.countP_cons] at hcount
      by_cases hk : k = k0
      · subst hk
        have hbt : decide (k = k) = true := by simp
        rw [hbt] at hcount
        simp only [if_pos] at hcount
        have hc0 : ks.countP (fun kp => decide (kp = k)) = 0 := by omega
        have hrest : (ks.map f).sum = 0 := by
          refine List.sum_eq_zero ?_
          intro x hx
          rw [List.mem_map] at hx
          obtain ⟨kp, hkp, hfk⟩ := hx
          rw [← hfk]
          refine hzero kp (List.mem_cons_of_mem k hkp) ?_
          intro he
          have := List.countP_eq_zero.mp hc0 kp hkp
          rw [decide_eq_true_eq] at this
          exact this he
        rw [hrest]
        omega
      · have hb : decide (k = k0) = false := decide_eq_false hk
        rw [hb] at hcount
        simp only [Bool.false_eq_true, if_false] at hcount
        rw [hzero k (List.mem_cons_self k ks) hk,
          ih (by omega) (fun kp hkp => hzero kp (List.mem_cons_of_mem k hkp))]
        omega

theorem countP_key_eq_one :
    ∀ (ks : List (String × String)), ks.Nodup → ∀ k0 ∈ ks,
      ks.countP (fun k => decide (k = k0)) = 1 := by
  intro ks
  induction ks with
  | nil => simp
  | cons k ks ih =>
      intro hnd k0 hk0
      rcases List.nodup_cons.mp hnd with ⟨hknotin, hndks⟩
      rw [List.countP_cons]
      rcases List.mem_cons.mp hk0 with he | hm
      · subst he
        have hz : ks.countP (fun kp => decide (kp = k0)) = 0 := by
          rw [List.countP_eq_zero]
          intro kp hkp hce
          rw [decide_eq_true_eq] at hce
          rw [hce] at hkp
          exact hknotin hkp
        rw [hz, decide_eq_true rfl]
        simp
      · have hne : k ≠ k0 := by
          intro he
          rw [he] at hknotin
          exact hknotin hm
        rw [decide_eq_false hne, ih hndks k0 hm]
        simp

theorem countP_emit (c : List PeptideHit) (h : PeptideHit) :
    (emitCluster c).countP (fun r => decide (r.hit = h)) =
      if 1 < c.length then List.count h c else 0 := by
  unfold emitCluster
  split
  next hl =>
    rw [List.countP_map, List.count_eq_countP]
    refine List.countP_congr ?_
    intro x _
    simp [Function.comp]
  next => simp

theorem emit_sum_eval (cls : List (List PeptideHit)) (h : PeptideHit)
    (hsum : (cls.map (List.count h)).sum = 1) :
    (cls.map (fun c => if 1 < c.length then List.count h c else 0)).sum =
      if cls.any (fun c => decide (h ∈ c) && decide (1 < c.length)) then 1 else 0 := by
  induction cls with
  | nil => simp at hsum
  | cons c rest ih =>
      rw [List.map_cons, List.sum_cons] at hsum ⊢
      rw [List.any_cons]
      by_cases hin : h ∈ c
      · have hc1 : 0 < List.count h c := List.count_pos_iff.mpr hin
        have hrest : (rest.map (List.count h)).sum = 0 := by omega
        have hcc : List.count h c = 1 := by omega
        have hz : ∀ c' ∈ rest, List.count h c' = 0 := by
          intro cp hcp
          have hle := List.single_le_sum (l := rest.map (List.count h))
            (fun x _ => Nat.zero_le x) (List.count h cp)
            (List.mem_map_of_mem (List.count h) hcp)
          omega
        have hrest0 : (rest.map (fun c => if 1 < c.length then List.count h c else 0)).sum = 0 := by
          refine List.sum_eq_zero ?_
          intro x hx
          rw [List.mem_map] at hx
          obtain ⟨cp, hcp, hfx⟩ := hx
          rw [← hfx, hz cp hcp]
          simp
        rw [hrest0, hcc]
        have hd : decide (h ∈ c) = true := decide_eq_true hin
        simp only [hd, Bool.true_and]
        by_cases hlen : 1 < c.length
        · simp [hlen]
        · have hanyr : rest.any (fun c => decide (h ∈ c) && decide (1 < c.length)) = false := by
            rw [List.any_eq_false]
            intro cp hcp
            have hnm : h ∉ cp := by
              rw [← List.count_pos_iff, hz cp hcp]
              omega
            simp [hnm]
          simp [hlen, hanyr]
      · have hc0 : List.count h c = 0 := List.count_eq_zero.mpr hin
        rw [hc0] at hsum
        rw [hc0]
        have hd : decide (h ∈ c) = false := decide_eq_false hin
        simp only [hd, Bool.false_and, Bool.false_or]
        rw [ih (by omega)]
        simp

theorem groupKeys_nodup (hits : List PeptideHit) : (groupKeys hits).Nodup :=
  ((List.perm_insertionSort keyLE ((hits.map groupKey).dedup)).symm).nodup
    (List.nodup_dedup (hits.map groupKey))

theorem mem_groupKeys {hits : List PeptideHit} {h : PeptideHit}
    (hm : h ∈ hits) : groupKey h ∈ groupKeys hits :=
  (List.perm_insertionSort keyLE ((hits.map groupKey).dedup)).mem_iff.mpr
    (List.mem_dedup.mpr (List.mem_map_of_mem groupKey hm))

theorem findClusters_countP (g : List PeptideHit) (h : PeptideHit) :
    (findClusters g).countP (fun r => decide (r.hit = h)) =
      ((buildClusters [] (g.insertionSort startLE)).map
        (fun c => if 1 < c.length then List.count h c else 0)).sum := by
  unfold findClusters
  rw [List.countP_flatten, List.map_map]
  refine congrArg List.sum ?_
  refine List.map_congr_left ?_
  intro c _
  simp only [Function.comp_apply]
  exact countP_emit c h

/-- C10: the sweep partitions each group (its clusters flatten back to the
sorted group), so for an input of distinct rows each hit lies in exactly
one cluster of its group's sweep; the hit is emitted exactly once when
that cluster has at least two members and zero times otherwise, and is in
particular never emitted twice. -/
theorem claim10_unique_emission (hits : List PeptideHit) (hnd : hits.Nodup)
    (h : PeptideHit) (hmem : h ∈ hits) :
    (∀ s : List PeptideHit, (buildClusters [] s).flatten = s) ∧
    (clustersOf hits (groupKey h)).countP (fun c => decide (h ∈ c)) = 1 ∧
    (identifyClusters hits).countP (fun r => decide (r.hit = h)) =
      (if (clustersOf hits (groupKey h)).any
          (fun c => decide (h ∈ c) && decide (1 < c.length)) then 1 else 0) ∧
    (identifyClusters hits).countP (fun r => decide (r.hit = h)) ≤ 1 := by
  have hging : h ∈ hits.filter (fun x => decide (groupKey x = groupKey h)) := by
    rw [List.mem_filter]
    exact ⟨hmem, by simp⟩
  have hnds : ((hits.filter (fun x => decide (groupKey x = groupKey h))).insertionSort
      startLE).Nodup :=
    ((List.perm_insertionSort startLE _).symm).nodup (hnd.filter _)
  have hmems : h ∈ (hits.filter (fun x => decide (groupKey x = groupKey h))).insertionSort
      startLE :=
    (List.perm_insertionSort startLE _).mem_iff.mpr hging
  have hcount1 : ((hits.filter (fun x => decide (groupKey x = groupKey h))).insertionSort
      startLE).count h = 1 :=
    List.count_eq_one_of_mem hnds hmems
  have hsum1 : ((clustersOf hits (groupKey h)).map (List.count h)).sum = 1 := by
    unfold clustersOf
    rw [← List.count_flatten, flatten_buildClusters]
    exact hcount1
  have hcntP : (clustersOf hits (groupKey h)).countP (fun c => decide (h ∈ c)) = 1 := by
    have hone := countP_ne_zero_of_sum_one _ hsum1
    rw [List.countP_map] at hone
    rw [← hone]
    refine List.countP_congr ?_
    intro c _
    simp only [Function.comp_apply, decide_eq_true_eq, ne_eq,
      ← List.count_pos_iff (a := h) (l := c)]
    omega
  have hz : ∀ k ∈ groupKeys hits, k ≠ groupKey h →
      ((fun k => findClusters (hits.filter (fun x => decide (groupKey x = k)))) k).countP
        (fun r => decide (r.hit = h)) = 0 := by
    intro k _ hne
    rw [List.countP_eq_zero]
    intro r hr hq
    rw [decide_eq_true_eq] at hq
    have hrk : groupKey r.hit = k := by
      have hrm := hit_mem_of_mem_findClusters hr
      rw [List.mem_filter, decide_eq_true_eq] at hrm
      exact hrm.2
    exact hne (by rw [← hrk, hq])
  have hks1 : (groupKeys hits).countP (fun k => decide (k = groupKey h)) = 1 :=
    countP_key_eq_one (groupKeys hits) (groupKeys_nodup hits) (groupKey h)
      (mem_groupKeys hmem)
  have hout : (identifyClusters hits).countP (fun r => decide (r.hit = h)) =
      ((clustersOf hits (groupKey h)).map
        (fun c => if 1 < c.length then List.count h c else 0)).sum := by
    unfold identifyClusters
    rw [List.countP_flatten, List.map_map]
    rw [sum_map_eq_single (groupKeys hits) _ (groupKey h) hks1
      (by
        intro k hk hne
        simp only [Function.comp_apply]
        exact hz k hk hne)]
    simp only [Function.comp_apply]
    rw [findClusters_countP]
    rfl
  have hmain := hout.trans (emit_sum_eval _ h hsum1)
  exact ⟨flatten_buildClusters, hcntP, hmain, by rw [hmain]; split <;> omega⟩

theorem claim10_witness :
    (∀ s : List PeptideHit, (buildClusters [] s).flatten = s) ∧
    (clustersOf scenarioHits (groupKey hitA)).countP
      (fun c => decide (hitA ∈ c)) = 1 ∧
    (identifyClusters scenarioHits).countP (fun r => decide (r.hit = hitA)) =
      (if (clustersOf scenarioHits (groupKey hitA)).any
          (fun c => decide (hitA ∈ c) && decide (1 < c.length)) then 1 else 0) ∧
    (identifyClusters scenarioHits).countP (fun r => decide (r.hit = hitA)) ≤ 1 :=
  claim10_unique_emission scenarioHits (by decide) hitA (by decide)

end AllergenValidation
